import Mathlib

/-!
Verification of the Dubins-path route planner in
`gdsfactory/routing/route_dubin.py`.

The planner is pure real arithmetic: it normalizes a pair of oriented
configurations and a turning radius into `(alpha, beta, d)`, evaluates six
closed-form path families (`LSL, RSR, LSR, RSL, RLR, LRL`), selects the
feasible family of minimum cost with a strict `<` comparison, and emits three
`(mode letter, physical length, radius)` segments.

The embedding below follows the Python source line by line over `ℝ`.
Python behaviour that is not a value is made explicit:
exceptions become `Except PyError`, `None` returns become `Option`,
and the 3-element list `path = [t, p, q]` is embedded as a real triple.
-/

namespace RouteDubin

/-- Python runtime exceptions that the planner's code paths can raise:
`NameError` (unbound `t` in the `bad planner` branch of `general_planner`),
`ZeroDivisionError` (`d = D / c` with `c = 0`), `TypeError` (`bt * c` with
`bt = None` when no family was selected) and `ValueError`
(the `Invalid mode` branch of `gds_solution`). -/
inductive PyError where
  | nameError
  | zeroDivisionError
  | typeError
  | valueError
  deriving DecidableEq

/-- Python `math.atan2 y x`: the angle of the point `(x, y)` in `(-π, π]`,
quadrant-correct, with `atan2 0 0 = 0` as in CPython. -/
noncomputable def atan2 (y x : ℝ) : ℝ :=
  if 0 < x then Real.arctan (y / x)
  else if x < 0 then
    (if 0 ≤ y then Real.arctan (y / x) + Real.pi else Real.arctan (y / x) - Real.pi)
  else if 0 < y then Real.pi / 2
  else if y < 0 then -(Real.pi / 2)
  else 0

/-- Helper `mod_to_pi` from the source: `angle - 2.0 * m.pi * m.floor(angle / 2.0 / m.pi)`,
which normalizes an angle to the range `[0, 2π)`. -/
noncomputable def mod_to_pi (angle : ℝ) : ℝ :=
  angle - 2 * Real.pi * ⌊angle / 2 / Real.pi⌋

/-- Python `math.radians`: degrees to radians. -/
noncomputable def radians (x : ℝ) : ℝ :=
  x * Real.pi / 180

/-- A family solution as built by `general_planner`:
the source's `(path, mode, cost)` with the 3-element list `path = [t, p, q]`
embedded as a real triple. -/
abbrev Sol : Type := (ℝ × ℝ × ℝ) × List Char × ℝ

/-- The `LSL` branch of `general_planner` (source lines 48-56), before the
shared post-processing; `none` is the source's `return None` (infeasible). -/
noncomputable def planLSL (alpha beta d : ℝ) : Option (ℝ × ℝ × ℝ) :=
  let sa := Real.sin alpha
  let sb := Real.sin beta
  let ca := Real.cos alpha
  let cb := Real.cos beta
  let c_ab := Real.cos (alpha - beta)
  let tmp0 := d + sa - sb
  let p_squared := 2 + (d * d) - (2 * c_ab) + (2 * d * (sa - sb))
  if p_squared < 0 then none
  else
    let tmp1 := atan2 (cb - ca) tmp0
    some (mod_to_pi (-alpha + tmp1), Real.sqrt p_squared, mod_to_pi (beta - tmp1))

/-- The `RSR` branch of `general_planner` (source lines 58-66). -/
noncomputable def planRSR (alpha beta d : ℝ) : Option (ℝ × ℝ × ℝ) :=
  let sa := Real.sin alpha
  let sb := Real.sin beta
  let ca := Real.cos alpha
  let cb := Real.cos beta
  let c_ab := Real.cos (alpha - beta)
  let tmp0 := d - sa + sb
  let p_squared := 2 + (d * d) - (2 * c_ab) + (2 * d * (sb - sa))
  if p_squared < 0 then none
  else
    let tmp1 := atan2 (ca - cb) tmp0
    some (mod_to_pi (alpha - tmp1), Real.sqrt p_squared, mod_to_pi (-beta + tmp1))

/-- The `LSR` branch of `general_planner` (source lines 68-75). -/
noncomputable def planLSR (alpha beta d : ℝ) : Option (ℝ × ℝ × ℝ) :=
  let sa := Real.sin alpha
  let sb := Real.sin beta
  let ca := Real.cos alpha
  let cb := Real.cos beta
  let c_ab := Real.cos (alpha - beta)
  let p_squared := -2 + (d * d) + (2 * c_ab) + (2 * d * (sa + sb))
  if p_squared < 0 then none
  else
    let p := Real.sqrt p_squared
    let tmp2 := atan2 (-ca - cb) (d + sa + sb) - atan2 (-2) p
    some (mod_to_pi (-alpha + tmp2), p, mod_to_pi (-(mod_to_pi beta) + tmp2))

/-- The `RSL` branch of `general_planner` (source lines 77-84). -/
noncomputable def planRSL (alpha beta d : ℝ) : Option (ℝ × ℝ × ℝ) :=
  let sa := Real.sin alpha
  let sb := Real.sin beta
  let ca := Real.cos alpha
  let cb := Real.cos beta
  let c_ab := Real.cos (alpha - beta)
  let p_squared := (d * d) - 2 + (2 * c_ab) - (2 * d * (sa + sb))
  if p_squared < 0 then none
  else
    let p := Real.sqrt p_squared
    let tmp2 := atan2 (ca + cb) (d - sa - sb) - atan2 2 p
    some (mod_to_pi (alpha - tmp2), p, mod_to_pi (beta - tmp2))

/-- The `RLR` branch of `general_planner` (source lines 86-93). -/
noncomputable def planRLR (alpha beta d : ℝ) : Option (ℝ × ℝ × ℝ) :=
  let sa := Real.sin alpha
  let sb := Real.sin beta
  let ca := Real.cos alpha
  let cb := Real.cos beta
  let c_ab := Real.cos (alpha - beta)
  let tmp_rlr := (6 - d * d + 2 * c_ab + 2 * d * (sa - sb)) / 8
  if 1 < |tmp_rlr| then none
  else
    let p := mod_to_pi (2 * Real.pi - Real.arccos tmp_rlr)
    let t := mod_to_pi (alpha - atan2 (ca - cb) (d - sa + sb) + mod_to_pi (p / 2))
    some (t, p, mod_to_pi (alpha - beta - t + mod_to_pi p))

/-- The `LRL` branch of `general_planner` (source lines 95-101). -/
noncomputable def planLRL (alpha beta d : ℝ) : Option (ℝ × ℝ × ℝ) :=
  let sa := Real.sin alpha
  let sb := Real.sin beta
  let ca := Real.cos alpha
  let cb := Real.cos beta
  let c_ab := Real.cos (alpha - beta)
  let tmp_lrl := (6 - d * d + 2 * c_ab + 2 * d * (-sa + sb)) / 8
  if 1 < |tmp_lrl| then none
  else
    let p := mod_to_pi (2 * Real.pi - Real.arccos tmp_lrl)
    let t := mod_to_pi (-alpha - atan2 (ca - cb) (d + sa - sb) + p / 2)
    some (t, p, mod_to_pi (mod_to_pi beta - alpha - t + mod_to_pi p))

/-- The tail of `general_planner` (source lines 106-114): `path = [t, p, q]`,
`mode = list(planner)`, the lower-case reflection loop over indices 0 and 2
(`path[i] = 2π - path[i]` when `planner[i].islower()`), and
`cost = sum(map(abs, path))`. The default `'A'` of `getD` is never used for
the strings that reach this point (their length is exactly 3). -/
noncomputable def finish (planner : String) (t p q : ℝ) : Sol :=
  let t' := if (planner.data.getD 0 'A').isLower then 2 * Real.pi - t else t
  let q' := if (planner.data.getD 2 'A').isLower then 2 * Real.pi - q else q
  ((t', p, q'), planner.data, |t'| + |p| + |q'|)

/-- Python `str.upper()` on the ASCII planner codes, written as a map over the
character list so that it reduces definitionally. -/
def upper (s : String) : String :=
  ⟨s.data.map Char.toUpper⟩

/-- Function `general_planner` from the source: dispatch on `planner.upper()`, run the
family formula (`none` = the source's `return None` for an infeasible family),
then the reflection/cost post-processing. The final `else` branch leaves
`t`, `p`, `q` unbound in Python, so `path = [t, p, q]` raises `NameError`. -/
noncomputable def general_planner (planner : String) (alpha beta d : ℝ) :
    Except PyError (Option Sol) :=
  let planner_uc := upper planner
  if planner_uc = "LSL" then
    .ok ((planLSL alpha beta d).map fun x => finish planner x.1 x.2.1 x.2.2)
  else if planner_uc = "RSR" then
    .ok ((planRSR alpha beta d).map fun x => finish planner x.1 x.2.1 x.2.2)
  else if planner_uc = "LSR" then
    .ok ((planLSR alpha beta d).map fun x => finish planner x.1 x.2.1 x.2.2)
  else if planner_uc = "RSL" then
    .ok ((planRSL alpha beta d).map fun x => finish planner x.1 x.2.1 x.2.2)
  else if planner_uc = "RLR" then
    .ok ((planRLR alpha beta d).map fun x => finish planner x.1 x.2.1 x.2.2)
  else if planner_uc = "LRL" then
    .ok ((planLRL alpha beta d).map fun x => finish planner x.1 x.2.1 x.2.2)
  else .error .nameError

/-- One comparison of the selection loop in `dubins_path`
(source lines 176-182): skip `None`, replace the running best exactly when
`bcost > cost`, i.e. when the new cost is strictly smaller.
`none` as the accumulator is the initial `bcost = float("inf")` state. -/
noncomputable def chooseBetter (best cand : Option Sol) : Option Sol :=
  match cand with
  | none => best
  | some s =>
    match best with
    | none => some s
    | some b => if s.2.2 < b.2.2 then some s else some b

/-- One iteration of the `for planner in planners` loop of `dubins_path`:
a pending Python exception propagates, otherwise the candidate from
`general_planner` is compared against the running best. -/
noncomputable def selectStep (alpha beta d : ℝ)
    (acc : Except PyError (Option Sol)) (planner : String) :
    Except PyError (Option Sol) :=
  match acc with
  | .error e => .error e
  | .ok best =>
    match general_planner planner alpha beta d with
    | .error e => .error e
    | .ok cand => .ok (chooseBetter best cand)

/-- The candidate list of `dubins_path` (source line 170), in source order. -/
def planners : List String :=
  ["LSL", "RSR", "LSR", "RSL", "RLR", "LRL"]

/-- The whole selection loop of `dubins_path` (source lines 170-182). -/
noncomputable def best_path (alpha beta d : ℝ) : Except PyError (Option Sol) :=
  planners.foldl (selectStep alpha beta d) (Except.ok none)

/-- Source lines 143-156 of `dubins_path`: headings to radians, end position
relative to the start, rotation into the start's local frame, and the local
heading difference. Configurations are `(x, y, heading-in-degrees)` triples.
Returns `(lex, ley, leyaw)`. -/
noncomputable def localFrame (s e : ℝ × ℝ × ℝ) : ℝ × ℝ × ℝ :=
  let syaw := radians s.2.2
  let eyaw := radians e.2.2
  let ex := e.1 - s.1
  let ey := e.2.1 - s.2.1
  (Real.cos syaw * ex + Real.sin syaw * ey,
   -Real.sin syaw * ex + Real.cos syaw * ey,
   eyaw - syaw)

/-- Source lines 159-167 of `dubins_path`: `D = sqrt(lex² + ley²)`,
`d = D / c`, `theta = mod_to_pi(atan2(ley, lex))`,
`alpha = mod_to_pi(-theta)`, `beta = mod_to_pi(leyaw - theta)`.
Returns `(alpha, beta, d)`. -/
noncomputable def normalize (c : ℝ) (s e : ℝ × ℝ × ℝ) : ℝ × ℝ × ℝ :=
  let lf := localFrame s e
  let D := Real.sqrt (lf.1 ^ 2 + lf.2.1 ^ 2)
  let d := D / c
  let theta := mod_to_pi (atan2 lf.2.1 lf.1)
  (mod_to_pi (-theta), mod_to_pi (lf.2.2 - theta), d)

/-- Function `dubins_path` from the source. The guard `c = 0` is where Python raises
`ZeroDivisionError` at `d = D / c` (everything before that division is total);
`.ok none` after the loop means `bmode` is still `None`, in which case Python
raises `TypeError` at `bt * c`. On success the source returns
`list(zip(bmode, [bt * c, bp * c, bq * c], [c] * 3))`. -/
noncomputable def dubins_path (c : ℝ) (s e : ℝ × ℝ × ℝ) :
    Except PyError (List (Char × ℝ × ℝ)) :=
  if c = 0 then .error .zeroDivisionError
  else
    let n := normalize c s e
    match best_path n.1 n.2.1 n.2.2 with
    | .error err => .error err
    | .ok none => .error .typeError
    | .ok (some ((bt, bp, bq), bmode, _)) =>
        .ok (bmode.zip (([bt * c, bp * c, bq * c]).zip [c, c, c]))

/-- Python float `%` with a positive modulus: `a % n = a - n * floor(a / n)`. -/
noncomputable def pymod (a n : ℝ) : ℝ :=
  a - n * ⌊a / n⌋

/-- The two fields of a gdsfactory port that `route_dubin` reads. -/
structure Port where
  center : ℝ × ℝ
  orientation : ℝ

/-- Function `route_dubin` (source lines 13-29) up to the planning call: both port
centers are divided by 1000, the start orientation is used unchanged, and the
end orientation is replaced by `(angle2 + 180) % 360` before `dubins_path` is
invoked. The subsequent `gds_solution` rendering is layout glue and out of
scope; the planned path is returned instead. -/
noncomputable def route_dubin_plan (radius : ℝ) (port1 port2 : Port) :
    Except PyError (List (Char × ℝ × ℝ)) :=
  let START := (port1.center.1 / 1000, port1.center.2 / 1000, port1.orientation)
  let angle2 := pymod (port2.orientation + 180) 360
  let END := (port2.center.1 / 1000, port2.center.2 / 1000, angle2)
  dubins_path radius START END

/-- Segment kinds as realized by `gds_solution`. -/
inductive SegKind where
  | left
  | right
  | straight
  deriving DecidableEq

/-- The dispatch of `gds_solution` (source lines 241-261) on one segment:
`'L'` becomes a left-turn arc of angle `180·length/(π·radius)` degrees, `'R'`
a right-turn arc of the negated angle, `'S'` a straight of the given length,
and any other letter raises `ValueError`. -/
noncomputable def gds_kind (mode : Char) (length radius : ℝ) :
    Except PyError (SegKind × ℝ) :=
  if mode = 'L' then .ok (.left, 180 * length / (Real.pi * radius))
  else if mode = 'R' then .ok (.right, -(180 * length / (Real.pi * radius)))
  else if mode = 'S' then .ok (.straight, length)
  else .error .valueError

/-! ### Spec-side family evaluators

The following six definitions are written from the family table of the
specification (section 4.2), not from the source: feasibility
`p² ≥ 0` (resp. `|val| ≤ 1` for the CCC families), and the `t, p, q`
closed forms as printed in the table, with `canon = mod_to_pi`. -/

/-- LSL row of the spec's table: feasible iff `p² = 2+d²−2c_ab+2d(sa−sb) ≥ 0`;
then `p = sqrt(p²)`, `tmp = atan2(cb−ca, d+sa−sb)`, `t = canon(−alpha+tmp)`,
`q = canon(beta−tmp)`. -/
noncomputable def specLSL (alpha beta d : ℝ) : Option (ℝ × ℝ × ℝ) :=
  let sa := Real.sin alpha
  let sb := Real.sin beta
  let ca := Real.cos alpha
  let cb := Real.cos beta
  let c_ab := Real.cos (alpha - beta)
  let psq := 2 + d ^ 2 - 2 * c_ab + 2 * d * (sa - sb)
  if 0 ≤ psq then
    let tmp := atan2 (cb - ca) (d + sa - sb)
    some (mod_to_pi (-alpha + tmp), Real.sqrt psq, mod_to_pi (beta - tmp))
  else none

/-- RSR row of the spec's table. -/
noncomputable def specRSR (alpha beta d : ℝ) : Option (ℝ × ℝ × ℝ) :=
  let sa := Real.sin alpha
  let sb := Real.sin beta
  let ca := Real.cos alpha
  let cb := Real.cos beta
  let c_ab := Real.cos (alpha - beta)
  let psq := 2 + d ^ 2 - 2 * c_ab + 2 * d * (sb - sa)
  if 0 ≤ psq then
    let tmp := atan2 (ca - cb) (d - sa + sb)
    some (mod_to_pi (alpha - tmp), Real.sqrt psq, mod_to_pi (-beta + tmp))
  else none

/-- LSR row of the spec's table. -/
noncomputable def specLSR (alpha beta d : ℝ) : Option (ℝ × ℝ × ℝ) :=
  let sa := Real.sin alpha
  let sb := Real.sin beta
  let ca := Real.cos alpha
  let cb := Real.cos beta
  let c_ab := Real.cos (alpha - beta)
  let psq := -2 + d ^ 2 + 2 * c_ab + 2 * d * (sa + sb)
  if 0 ≤ psq then
    let p := Real.sqrt psq
    let tmp := atan2 (-ca - cb) (d + sa + sb) - atan2 (-2) p
    some (mod_to_pi (-alpha + tmp), p, mod_to_pi (-(mod_to_pi beta) + tmp))
  else none

/-- RSL row of the spec's table. -/
noncomputable def specRSL (alpha beta d : ℝ) : Option (ℝ × ℝ × ℝ) :=
  let sa := Real.sin alpha
  let sb := Real.sin beta
  let ca := Real.cos alpha
  let cb := Real.cos beta
  let c_ab := Real.cos (alpha - beta)
  let psq := d ^ 2 - 2 + 2 * c_ab - 2 * d * (sa + sb)
  if 0 ≤ psq then
    let p := Real.sqrt psq
    let tmp := atan2 (ca + cb) (d - sa - sb) - atan2 2 p
    some (mod_to_pi (alpha - tmp), p, mod_to_pi (beta - tmp))
  else none

/-- RLR row of the spec's table: feasible iff
`|(6−d²+2c_ab+2d(sa−sb))/8| ≤ 1`; then `p = canon(2π−acos(val))`,
`t = canon(alpha−atan2(ca−cb, d−sa+sb)+canon(p/2))`,
`q = canon(alpha−beta−t+canon(p))`. -/
noncomputable def specRLR (alpha beta d : ℝ) : Option (ℝ × ℝ × ℝ) :=
  let sa := Real.sin alpha
  let sb := Real.sin beta
  let ca := Real.cos alpha
  let cb := Real.cos beta
  let c_ab := Real.cos (alpha - beta)
  let val := (6 - d ^ 2 + 2 * c_ab + 2 * d * (sa - sb)) / 8
  if |val| ≤ 1 then
    let p := mod_to_pi (2 * Real.pi - Real.arccos val)
    let t := mod_to_pi (alpha - atan2 (ca - cb) (d - sa + sb) + mod_to_pi (p / 2))
    some (t, p, mod_to_pi (alpha - beta - t + mod_to_pi p))
  else none

/-- LRL row of the spec's table: feasible iff
`|(6−d²+2c_ab+2d(sb−sa))/8| ≤ 1`; then `p = canon(2π−acos(val))`,
`t = canon(−alpha−atan2(ca−cb, d+sa−sb)+p/2)`,
`q = canon(canon(beta)−alpha−t+canon(p))`. -/
noncomputable def specLRL (alpha beta d : ℝ) : Option (ℝ × ℝ × ℝ) :=
  let sa := Real.sin alpha
  let sb := Real.sin beta
  let ca := Real.cos alpha
  let cb := Real.cos beta
  let c_ab := Real.cos (alpha - beta)
  let val := (6 - d ^ 2 + 2 * c_ab + 2 * d * (sb - sa)) / 8
  if |val| ≤ 1 then
    let p := mod_to_pi (2 * Real.pi - Real.arccos val)
    let t := mod_to_pi (-alpha - atan2 (ca - cb) (d + sa - sb) + p / 2)
    some (t, p, mod_to_pi (mod_to_pi beta - alpha - t + mod_to_pi p))
  else none

/-! ### Variant of the planner with the lower-case reflection step removed -/

/-- Variant of `finish` with the lower-case reflection loop deleted: the measures are
returned exactly as the family formula produced them. -/
noncomputable def finish_plain (planner : String) (t p q : ℝ) : Sol :=
  ((t, p, q), planner.data, |t| + |p| + |q|)

/-- Variant of `general_planner` with `finish_plain` in place of `finish`. -/
noncomputable def general_planner_plain (planner : String) (alpha beta d : ℝ) :
    Except PyError (Option Sol) :=
  let planner_uc := upper planner
  if planner_uc = "LSL" then
    .ok ((planLSL alpha beta d).map fun x => finish_plain planner x.1 x.2.1 x.2.2)
  else if planner_uc = "RSR" then
    .ok ((planRSR alpha beta d).map fun x => finish_plain planner x.1 x.2.1 x.2.2)
  else if planner_uc = "LSR" then
    .ok ((planLSR alpha beta d).map fun x => finish_plain planner x.1 x.2.1 x.2.2)
  else if planner_uc = "RSL" then
    .ok ((planRSL alpha beta d).map fun x => finish_plain planner x.1 x.2.1 x.2.2)
  else if planner_uc = "RLR" then
    .ok ((planRLR alpha beta d).map fun x => finish_plain planner x.1 x.2.1 x.2.2)
  else if planner_uc = "LRL" then
    .ok ((planLRL alpha beta d).map fun x => finish_plain planner x.1 x.2.1 x.2.2)
  else .error .nameError

/-- Variant of `selectStep` over the reflection-free planner. -/
noncomputable def selectStep_plain (alpha beta d : ℝ)
    (acc : Except PyError (Option Sol)) (planner : String) :
    Except PyError (Option Sol) :=
  match acc with
  | .error e => .error e
  | .ok best =>
    match general_planner_plain planner alpha beta d with
    | .error e => .error e
    | .ok cand => .ok (chooseBetter best cand)

/-- The selection loop over the reflection-free planner. -/
noncomputable def best_path_plain (alpha beta d : ℝ) : Except PyError (Option Sol) :=
  planners.foldl (selectStep_plain alpha beta d) (Except.ok none)

/-- Variant of `dubins_path` over the reflection-free planner. -/
noncomputable def dubins_path_plain (c : ℝ) (s e : ℝ × ℝ × ℝ) :
    Except PyError (List (Char × ℝ × ℝ)) :=
  if c = 0 then .error .zeroDivisionError
  else
    let n := normalize c s e
    match best_path_plain n.1 n.2.1 n.2.2 with
    | .error err => .error err
    | .ok none => .error .typeError
    | .ok (some ((bt, bp, bq), bmode, _)) =>
        .ok (bmode.zip (([bt * c, bp * c, bq * c]).zip [c, c, c]))

/-! ### Selector specification -/

/-- Cost field of a family solution. -/
noncomputable def cost (s : Sol) : ℝ :=
  s.2.2

/-- Earlier-candidate tie-break: keep `s` unless `fm` is strictly cheaper. -/
noncomputable def merge (s : Sol) (fm : Option Sol) : Sol :=
  match fm with
  | none => s
  | some b => if cost b < cost s then b else s

/-- First minimum of a candidate list: the earliest candidate whose cost is
strictly smaller than every feasible candidate before it and at most the cost
of every feasible candidate after it. -/
noncomputable def firstMin : List (Option Sol) → Option Sol
  | [] => none
  | none :: rest => firstMin rest
  | some s :: rest => some (merge s (firstMin rest))

/-- The value of one family as the selection loop sees it: `none` both for an
infeasible family and (vacuously, never reached on the six codes) for a raised
exception. -/
noncomputable def famSol (planner : String) (alpha beta d : ℝ) : Option Sol :=
  match general_planner planner alpha beta d with
  | .ok o => o
  | .error _ => none

/-- The six candidates in source order. -/
noncomputable def sols (alpha beta d : ℝ) : List (Option Sol) :=
  planners.map fun s => famSol s alpha beta d

/-! ### Range-reduction lemmas -/

theorem two_pi_pos : (0 : ℝ) < 2 * Real.pi := by positivity

theorem mod_to_pi_eq (a : ℝ) :
    mod_to_pi a = a - 2 * Real.pi * ⌊a / (2 * Real.pi)⌋ := by
  unfold mod_to_pi
  rw [div_div]

theorem mod_to_pi_nonneg (a : ℝ) : 0 ≤ mod_to_pi a := by
  rw [mod_to_pi_eq]
  have h2 := two_pi_pos
  have hf : (⌊a / (2 * Real.pi)⌋ : ℝ) ≤ a / (2 * Real.pi) := Int.floor_le _
  have h3 : 2 * Real.pi * (⌊a / (2 * Real.pi)⌋ : ℝ) ≤ 2 * Real.pi * (a / (2 * Real.pi)) :=
    mul_le_mul_of_nonneg_left hf h2.le
  have h4 : 2 * Real.pi * (a / (2 * Real.pi)) = a := by field_simp
  linarith

theorem mod_to_pi_lt (a : ℝ) : mod_to_pi a < 2 * Real.pi := by
  rw [mod_to_pi_eq]
  have h2 := two_pi_pos
  have hf : a / (2 * Real.pi) < ⌊a / (2 * Real.pi)⌋ + 1 := Int.lt_floor_add_one _
  have h3 : 2 * Real.pi * (a / (2 * Real.pi)) <
      2 * Real.pi * ((⌊a / (2 * Real.pi)⌋ : ℝ) + 1) :=
    mul_lt_mul_of_pos_left hf h2
  have h4 : 2 * Real.pi * (a / (2 * Real.pi)) = a := by field_simp
  nlinarith

theorem pymod_nonneg (a n : ℝ) (hn : 0 < n) : 0 ≤ pymod a n := by
  unfold pymod
  have hf : (⌊a / n⌋ : ℝ) ≤ a / n := Int.floor_le _
  have h3 : n * (⌊a / n⌋ : ℝ) ≤ n * (a / n) := mul_le_mul_of_nonneg_left hf hn.le
  have h4 : n * (a / n) = a := by field_simp
  linarith

theorem pymod_lt (a n : ℝ) (hn : 0 < n) : pymod a n < n := by
  unfold pymod
  have hf : a / n < ⌊a / n⌋ + 1 := Int.lt_floor_add_one _
  have h3 : n * (a / n) < n * ((⌊a / n⌋ : ℝ) + 1) := mul_lt_mul_of_pos_left hf hn
  have h4 : n * (a / n) = a := by field_simp
  nlinarith

/-! ### Scaling lemmas for the normalization layer -/

theorem atan2_scale (k y x : ℝ) (hk : 0 < k) : atan2 (k * y) (k * x) = atan2 y x := by
  have hk' : k ≠ 0 := ne_of_gt hk
  have hdiv : k * y / (k * x) = y / x := mul_div_mul_left y x hk'
  have hx1 : 0 < k * x ↔ 0 < x := by
    constructor
    · intro h; nlinarith
    · intro h; exact mul_pos hk h
  have hx2 : k * x < 0 ↔ x < 0 := by
    constructor
    · intro h; nlinarith
    · intro h; exact mul_neg_of_pos_of_neg hk h
  have hy1 : 0 ≤ k * y ↔ 0 ≤ y := by
    constructor
    · intro h; nlinarith
    · intro h; exact mul_nonneg hk.le h
  have hy2 : 0 < k * y ↔ 0 < y := by
    constructor
    · intro h; nlinarith
    · intro h; exact mul_pos hk h
  have hy3 : k * y < 0 ↔ y < 0 := by
    constructor
    · intro h; nlinarith
    · intro h; exact mul_neg_of_pos_of_neg hk h
  unfold atan2
  simp only [hx1, hx2, hy1, hy2, hy3, hdiv]

theorem sqrt_sum_sq_scale (k a b : ℝ) (hk : 0 ≤ k) :
    Real.sqrt ((k * a) ^ 2 + (k * b) ^ 2) = k * Real.sqrt (a ^ 2 + b ^ 2) := by
  rw [show (k * a) ^ 2 + (k * b) ^ 2 = k ^ 2 * (a ^ 2 + b ^ 2) by ring]
  rw [Real.sqrt_mul (sq_nonneg k), Real.sqrt_sq hk]

theorem localFrame_scale (k sx sy h1 ex ey h2 : ℝ) :
    localFrame (k * sx, k * sy, h1) (k * ex, k * ey, h2) =
      (k * (localFrame (sx, sy, h1) (ex, ey, h2)).1,
       k * (localFrame (sx, sy, h1) (ex, ey, h2)).2.1,
       (localFrame (sx, sy, h1) (ex, ey, h2)).2.2) := by
  simp only [localFrame, Prod.mk.injEq]
  refine ⟨by ring, by ring, trivial⟩

theorem normalize_scale (k c sx sy h1 ex ey h2 : ℝ) (hk : 0 < k) :
    normalize (k * c) (k * sx, k * sy, h1) (k * ex, k * ey, h2) =
      normalize c (sx, sy, h1) (ex, ey, h2) := by
  simp only [normalize, localFrame_scale]
  rw [atan2_scale _ _ _ hk, sqrt_sum_sq_scale _ _ _ hk.le,
    mul_div_mul_left _ _ (ne_of_gt hk)]

/-! ### Evaluation equations for the six planner codes -/

theorem general_planner_LSL (alpha beta d : ℝ) :
    general_planner "LSL" alpha beta d =
      .ok ((planLSL alpha beta d).map fun x => finish "LSL" x.1 x.2.1 x.2.2) := rfl

theorem general_planner_RSR (alpha beta d : ℝ) :
    general_planner "RSR" alpha beta d =
      .ok ((planRSR alpha beta d).map fun x => finish "RSR" x.1 x.2.1 x.2.2) := rfl

theorem general_planner_LSR (alpha beta d : ℝ) :
    general_planner "LSR" alpha beta d =
      .ok ((planLSR alpha beta d).map fun x => finish "LSR" x.1 x.2.1 x.2.2) := rfl

theorem general_planner_RSL (alpha beta d : ℝ) :
    general_planner "RSL" alpha beta d =
      .ok ((planRSL alpha beta d).map fun x => finish "RSL" x.1 x.2.1 x.2.2) := rfl

theorem general_planner_RLR (alpha beta d : ℝ) :
    general_planner "RLR" alpha beta d =
      .ok ((planRLR alpha beta d).map fun x => finish "RLR" x.1 x.2.1 x.2.2) := rfl

theorem general_planner_LRL (alpha beta d : ℝ) :
    general_planner "LRL" alpha beta d =
      .ok ((planLRL alpha beta d).map fun x => finish "LRL" x.1 x.2.1 x.2.2) := rfl

theorem famSol_LSL (alpha beta d : ℝ) :
    famSol "LSL" alpha beta d =
      (planLSL alpha beta d).map fun x => finish "LSL" x.1 x.2.1 x.2.2 := rfl

theorem famSol_RSR (alpha beta d : ℝ) :
    famSol "RSR" alpha beta d =
      (planRSR alpha beta d).map fun x => finish "RSR" x.1 x.2.1 x.2.2 := rfl

theorem famSol_LSR (alpha beta d : ℝ) :
    famSol "LSR" alpha beta d =
      (planLSR alpha beta d).map fun x => finish "LSR" x.1 x.2.1 x.2.2 := rfl

theorem famSol_RSL (alpha beta d : ℝ) :
    famSol "RSL" alpha beta d =
      (planRSL alpha beta d).map fun x => finish "RSL" x.1 x.2.1 x.2.2 := rfl

theorem famSol_RLR (alpha beta d : ℝ) :
    famSol "RLR" alpha beta d =
      (planRLR alpha beta d).map fun x => finish "RLR" x.1 x.2.1 x.2.2 := rfl

theorem famSol_LRL (alpha beta d : ℝ) :
    famSol "LRL" alpha beta d =
      (planLRL alpha beta d).map fun x => finish "LRL" x.1 x.2.1 x.2.2 := rfl

theorem gp_ok_planners (alpha beta d : ℝ) :
    ∀ s ∈ planners, general_planner s alpha beta d = .ok (famSol s alpha beta d) := by
  intro s hs
  simp only [planners, List.mem_cons, List.not_mem_nil, or_false] at hs
  rcases hs with rfl | rfl | rfl | rfl | rfl | rfl <;> rfl

/-! ### The selection loop computes the first minimum -/

theorem foldl_selectStep_ok (alpha beta d : ℝ) (l : List String)
    (hl : ∀ s ∈ l, general_planner s alpha beta d = .ok (famSol s alpha beta d)) :
    ∀ b : Option Sol,
      l.foldl (selectStep alpha beta d) (Except.ok b) =
        .ok (List.foldl chooseBetter b (l.map fun s => famSol s alpha beta d)) := by
  induction l with
  | nil => intro b; rfl
  | cons hd tl ih =>
    intro b
    have hhd : general_planner hd alpha beta d = .ok (famSol hd alpha beta d) :=
      hl hd (List.mem_cons_self hd tl)
    have htl : ∀ s ∈ tl, general_planner s alpha beta d = .ok (famSol s alpha beta d) :=
      fun s hs => hl s (List.mem_cons_of_mem _ hs)
    have hstep : selectStep alpha beta d (Except.ok b) hd =
        .ok (chooseBetter b (famSol hd alpha beta d)) := by
      unfold selectStep
      rw [hhd]
    simp only [List.foldl, List.map, hstep]
    exact ih htl (chooseBetter b (famSol hd alpha beta d))

theorem merge_step (b s : Sol) (fm : Option Sol) :
    merge (if s.2.2 < b.2.2 then s else b) fm = merge b (some (merge s fm)) := by
  rcases fm with _ | f
  · rfl
  · unfold merge cost
    by_cases h1 : f.2.2 < s.2.2
    · by_cases h2 : s.2.2 < b.2.2
      · have h3 : f.2.2 < b.2.2 := lt_trans h1 h2
        simp [h1, h2, h3]
      · simp [h1, h2]
    · by_cases h2 : s.2.2 < b.2.2
      · simp [h1, h2]
      · have h3 : ¬ f.2.2 < b.2.2 := by
          intro h
          exact h1 (lt_of_lt_of_le h (not_lt.1 h2))
        simp [h1, h2, h3]

theorem foldl_chooseBetter (l : List (Option Sol)) :
    ∀ acc : Option Sol,
      List.foldl chooseBetter acc l =
        match acc with
        | none => firstMin l
        | some b => some (merge b (firstMin l)) := by
  induction l with
  | nil => intro acc; cases acc <;> rfl
  | cons hd tl ih =>
    intro acc
    cases hd with
    | none =>
      cases acc with
      | none => simpa [List.foldl, chooseBetter, firstMin] using ih none
      | some b => simpa [List.foldl, chooseBetter, firstMin] using ih (some b)
    | some s =>
      cases acc with
      | none =>
        simpa [List.foldl, chooseBetter, firstMin] using ih (some s)
      | some b =>
        have hcb : chooseBetter (some b) (some s) =
            some (if s.2.2 < b.2.2 then s else b) := by
          show (if s.2.2 < b.2.2 then some s else some b : Option Sol) =
            some (if s.2.2 < b.2.2 then s else b)
          split_ifs <;> rfl
        simp only [List.foldl, hcb, ih (some (if s.2.2 < b.2.2 then s else b))]
        show some (merge (if s.2.2 < b.2.2 then s else b) (firstMin tl)) =
          some (merge b (firstMin (some s :: tl)))
        rw [show firstMin (some s :: tl) = some (merge s (firstMin tl)) from rfl,
          merge_step]

theorem firstMin_none (l : List (Option Sol)) :
    firstMin l = none ↔ ∀ x ∈ l, x = none := by
  induction l with
  | nil => simp [firstMin]
  | cons hd tl ih =>
    cases hd with
    | none => simp [firstMin, ih]
    | some s => simp [firstMin]

theorem firstMin_split (l : List (Option Sol)) :
    ∀ b : Sol, firstMin l = some b →
      ∃ l1 l2, l = l1 ++ some b :: l2 ∧
        (∀ s : Sol, some s ∈ l1 → cost b < cost s) ∧
        (∀ s : Sol, some s ∈ l2 → cost b ≤ cost s) := by
  induction l with
  | nil => intro b h; simp [firstMin] at h
  | cons hd tl ih =>
    intro b h
    cases hd with
    | none =>
      rw [show firstMin (none :: tl) = firstMin tl from rfl] at h
      obtain ⟨l1, l2, hl, h1, h2⟩ := ih b h
      refine ⟨none :: l1, l2, by simp [hl], ?_, h2⟩
      intro s hs
      rcases List.mem_cons.1 hs with heq | hmem
      · exact absurd heq (by simp)
      · exact h1 s hmem
    | some s =>
      have h' : merge s (firstMin tl) = b := by
        have hfm : firstMin (some s :: tl) = some (merge s (firstMin tl)) := rfl
        rw [hfm] at h
        exact Option.some_injective _ h
      rcases hfm : firstMin tl with _ | f
      · rw [hfm] at h'
        have hb : s = b := h'
        subst hb
        refine ⟨[], tl, rfl, by simp, ?_⟩
        intro t ht
        have := (firstMin_none tl).1 hfm _ ht
        simp at this
      · rw [hfm] at h'
        by_cases hc : f.2.2 < s.2.2
        · have hb : f = b := by
            rw [show merge s (some f) = if f.2.2 < s.2.2 then f else s from rfl,
              if_pos hc] at h'
            exact h'
          obtain ⟨l1, l2, hl, h1, h2⟩ := ih f hfm
          subst hb
          refine ⟨some s :: l1, l2, by simp [hl], ?_, h2⟩
          intro t ht
          rcases List.mem_cons.1 ht with heq | hmem
          · have hts : t = s := by
              injection heq.symm with h''
              exact h''.symm
            subst hts
            exact hc
          · exact h1 t hmem
        · have hb : s = b := by
            rw [show merge s (some f) = if f.2.2 < s.2.2 then f else s from rfl,
              if_neg hc] at h'
            exact h'
          subst hb
          have hsf : cost s ≤ cost f := not_lt.1 hc
          obtain ⟨l1, l2, hl, h1, h2⟩ := ih f hfm
          refine ⟨[], tl, rfl, by simp, ?_⟩
          intro t ht
          rw [hl] at ht
          rcases List.mem_append.1 ht with hmem | hmem
          · exact le_of_lt (lt_of_le_of_lt hsf (h1 t hmem))
          · rcases List.mem_cons.1 hmem with heq | hmem'
            · have htf : t = f := by
                injection heq.symm with h''
                exact h''.symm
              subst htf
              exact hsf
            · exact le_trans hsf (h2 t hmem')

theorem best_path_eq (alpha beta d : ℝ) :
    best_path alpha beta d = .ok (firstMin (sols alpha beta d)) := by
  unfold best_path sols
  rw [foldl_selectStep_ok alpha beta d planners (gp_ok_planners alpha beta d) none,
    foldl_chooseBetter]

/-! ### At least one family is always feasible -/

theorem lsl_or_rsr_feasible (alpha beta d : ℝ) :
    planLSL alpha beta d ≠ none ∨ planRSR alpha beta d ≠ none := by
  by_cases h1 : 2 + d * d - 2 * Real.cos (alpha - beta) +
      2 * d * (Real.sin alpha - Real.sin beta) < 0
  · right
    have h2 : ¬ (2 + d * d - 2 * Real.cos (alpha - beta) +
        2 * d * (Real.sin beta - Real.sin alpha) < 0) := by
      have hcos := Real.cos_le_one (alpha - beta)
      intro h2
      nlinarith [mul_self_nonneg d]
    simp [planRSR, h2]
  · left
    simp [planLSL, h1]

theorem famSol_feasible (alpha beta d : ℝ) :
    famSol "LSL" alpha beta d ≠ none ∨ famSol "RSR" alpha beta d ≠ none := by
  rcases lsl_or_rsr_feasible alpha beta d with h | h
  · left
    rw [famSol_LSL]
    exact fun hc => h (Option.map_eq_none'.1 hc)
  · right
    rw [famSol_RSR]
    exact fun hc => h (Option.map_eq_none'.1 hc)

theorem firstMin_sols_ne_none (alpha beta d : ℝ) :
    firstMin (sols alpha beta d) ≠ none := by
  intro h
  rw [firstMin_none] at h
  rcases famSol_feasible alpha beta d with hf | hf
  · exact hf (h _ (by simp [sols, planners]))
  · exact hf (h _ (by simp [sols, planners]))

/-! ### The selected mode letters come from the winning code -/

theorem famSol_mode (alpha beta d : ℝ) :
    ∀ pl ∈ planners, ∀ b : Sol, famSol pl alpha beta d = some b → b.2.1 = pl.data := by
  intro pl hpl b hb
  simp only [planners, List.mem_cons, List.not_mem_nil, or_false] at hpl
  rcases hpl with rfl | rfl | rfl | rfl | rfl | rfl
  · rw [famSol_LSL] at hb
    obtain ⟨x, _, hfx⟩ := Option.map_eq_some'.1 hb
    rw [← hfx]; rfl
  · rw [famSol_RSR] at hb
    obtain ⟨x, _, hfx⟩ := Option.map_eq_some'.1 hb
    rw [← hfx]; rfl
  · rw [famSol_LSR] at hb
    obtain ⟨x, _, hfx⟩ := Option.map_eq_some'.1 hb
    rw [← hfx]; rfl
  · rw [famSol_RSL] at hb
    obtain ⟨x, _, hfx⟩ := Option.map_eq_some'.1 hb
    rw [← hfx]; rfl
  · rw [famSol_RLR] at hb
    obtain ⟨x, _, hfx⟩ := Option.map_eq_some'.1 hb
    rw [← hfx]; rfl
  · rw [famSol_LRL] at hb
    obtain ⟨x, _, hfx⟩ := Option.map_eq_some'.1 hb
    rw [← hfx]; rfl

theorem planners_data (pl : String) (hpl : pl ∈ planners) :
    ∃ m0 m1 m2 : Char, pl.data = [m0, m1, m2] ∧
      (m0 = 'L' ∨ m0 = 'R' ∨ m0 = 'S') ∧ (m1 = 'L' ∨ m1 = 'R' ∨ m1 = 'S') ∧
      (m2 = 'L' ∨ m2 = 'R' ∨ m2 = 'S') := by
  simp only [planners, List.mem_cons, List.not_mem_nil, or_false] at hpl
  rcases hpl with rfl | rfl | rfl | rfl | rfl | rfl
  · exact ⟨'L', 'S', 'L', rfl, by simp, by simp, by simp⟩
  · exact ⟨'R', 'S', 'R', rfl, by simp, by simp, by simp⟩
  · exact ⟨'L', 'S', 'R', rfl, by simp, by simp, by simp⟩
  · exact ⟨'R', 'S', 'L', rfl, by simp, by simp, by simp⟩
  · exact ⟨'R', 'L', 'R', rfl, by simp, by simp, by simp⟩
  · exact ⟨'L', 'R', 'L', rfl, by simp, by simp, by simp⟩

theorem firstMin_sols_mem (alpha beta d : ℝ) (b : Sol)
    (h : firstMin (sols alpha beta d) = some b) :
    ∃ pl ∈ planners, famSol pl alpha beta d = some b := by
  obtain ⟨l1, l2, hl, _, _⟩ := firstMin_split _ b h
  have hmem : some b ∈ sols alpha beta d := by
    rw [hl]
    exact List.mem_append_right _ (List.mem_cons_self _ _)
  obtain ⟨pl, hpl, heq⟩ := List.mem_map.1 (by simpa [sols] using hmem)
  exact ⟨pl, hpl, heq⟩

/-! ### Every call with a nonzero radius succeeds with a 3-letter mode -/

theorem dubins_path_ok (c : ℝ) (s e : ℝ × ℝ × ℝ) (hc : c ≠ 0) :
    ∃ bt bp bq bmode bcost,
      firstMin (sols (normalize c s e).1 (normalize c s e).2.1 (normalize c s e).2.2) =
        some ((bt, bp, bq), bmode, bcost) ∧
      dubins_path c s e = .ok (bmode.zip (([bt * c, bp * c, bq * c]).zip [c, c, c])) ∧
      ∃ m0 m1 m2 : Char, bmode = [m0, m1, m2] ∧
        (m0 = 'L' ∨ m0 = 'R' ∨ m0 = 'S') ∧ (m1 = 'L' ∨ m1 = 'R' ∨ m1 = 'S') ∧
        (m2 = 'L' ∨ m2 = 'R' ∨ m2 = 'S') := by
  rcases hfm : firstMin (sols (normalize c s e).1 (normalize c s e).2.1
      (normalize c s e).2.2) with _ | b
  · exact absurd hfm (firstMin_sols_ne_none _ _ _)
  · obtain ⟨⟨bt, bp, bq⟩, bmode, bcost⟩ := b
    refine ⟨bt, bp, bq, bmode, bcost, rfl, ?_, ?_⟩
    · show (if c = 0 then Except.error PyError.zeroDivisionError
        else match best_path (normalize c s e).1 (normalize c s e).2.1
            (normalize c s e).2.2 with
          | .error err => .error err
          | .ok none => .error .typeError
          | .ok (some ((bt, bp, bq), bmode, _)) =>
              .ok (bmode.zip (([bt * c, bp * c, bq * c]).zip [c, c, c]))) =
        .ok (bmode.zip (([bt * c, bp * c, bq * c]).zip [c, c, c]))
      rw [if_neg hc, best_path_eq, hfm]
    · obtain ⟨pl, hpl, heq⟩ := firstMin_sols_mem _ _ _ _ hfm
      have hmode := famSol_mode _ _ _ pl hpl _ heq
      obtain ⟨m0, m1, m2, hdata, h0, h1, h2⟩ := planners_data pl hpl
      exact ⟨m0, m1, m2, by rw [show bmode = pl.data from hmode, hdata], h0, h1, h2⟩

/-! ### Non-negativity of the family measures -/

theorem planLSL_bounds {alpha beta d t p q : ℝ}
    (h : planLSL alpha beta d = some (t, p, q)) :
    0 ≤ t ∧ t ≤ 2 * Real.pi ∧ 0 ≤ p ∧ 0 ≤ q ∧ q ≤ 2 * Real.pi := by
  simp only [planLSL] at h
  split_ifs at h
  simp only [Option.some.injEq, Prod.mk.injEq] at h
  obtain ⟨h1, h2, h3⟩ := h
  subst h1; subst h2; subst h3
  exact ⟨mod_to_pi_nonneg _, (mod_to_pi_lt _).le, Real.sqrt_nonneg _,
    mod_to_pi_nonneg _, (mod_to_pi_lt _).le⟩

theorem planRSR_bounds {alpha beta d t p q : ℝ}
    (h : planRSR alpha beta d = some (t, p, q)) :
    0 ≤ t ∧ t ≤ 2 * Real.pi ∧ 0 ≤ p ∧ 0 ≤ q ∧ q ≤ 2 * Real.pi := by
  simp only [planRSR] at h
  split_ifs at h
  simp only [Option.some.injEq, Prod.mk.injEq] at h
  obtain ⟨h1, h2, h3⟩ := h
  subst h1; subst h2; subst h3
  exact ⟨mod_to_pi_nonneg _, (mod_to_pi_lt _).le, Real.sqrt_nonneg _,
    mod_to_pi_nonneg _, (mod_to_pi_lt _).le⟩

theorem planLSR_bounds {alpha beta d t p q : ℝ}
    (h : planLSR alpha beta d = some (t, p, q)) :
    0 ≤ t ∧ t ≤ 2 * Real.pi ∧ 0 ≤ p ∧ 0 ≤ q ∧ q ≤ 2 * Real.pi := by
  simp only [planLSR] at h
  split_ifs at h
  simp only [Option.some.injEq, Prod.mk.injEq] at h
  obtain ⟨h1, h2, h3⟩ := h
  subst h1; subst h2; subst h3
  exact ⟨mod_to_pi_nonneg _, (mod_to_pi_lt _).le, Real.sqrt_nonneg _,
    mod_to_pi_nonneg _, (mod_to_pi_lt _).le⟩

theorem planRSL_bounds {alpha beta d t p q : ℝ}
    (h : planRSL alpha beta d = some (t, p, q)) :
    0 ≤ t ∧ t ≤ 2 * Real.pi ∧ 0 ≤ p ∧ 0 ≤ q ∧ q ≤ 2 * Real.pi := by
  simp only [planRSL] at h
  split_ifs at h
  simp only [Option.some.injEq, Prod.mk.injEq] at h
  obtain ⟨h1, h2, h3⟩ := h
  subst h1; subst h2; subst h3
  exact ⟨mod_to_pi_nonneg _, (mod_to_pi_lt _).le, Real.sqrt_nonneg _,
    mod_to_pi_nonneg _, (mod_to_pi_lt _).le⟩

theorem planRLR_bounds {alpha beta d t p q : ℝ}
    (h : planRLR alpha beta d = some (t, p, q)) :
    0 ≤ t ∧ t ≤ 2 * Real.pi ∧ 0 ≤ p ∧ 0 ≤ q ∧ q ≤ 2 * Real.pi := by
  simp only [planRLR] at h
  split_ifs at h
  simp only [Option.some.injEq, Prod.mk.injEq] at h
  obtain ⟨h1, h2, h3⟩ := h
  subst h1; subst h2; subst h3
  exact ⟨mod_to_pi_nonneg _, (mod_to_pi_lt _).le, mod_to_pi_nonneg _,
    mod_to_pi_nonneg _, (mod_to_pi_lt _).le⟩

theorem planLRL_bounds {alpha beta d t p q : ℝ}
    (h : planLRL alpha beta d = some (t, p, q)) :
    0 ≤ t ∧ t ≤ 2 * Real.pi ∧ 0 ≤ p ∧ 0 ≤ q ∧ q ≤ 2 * Real.pi := by
  simp only [planLRL] at h
  split_ifs at h
  simp only [Option.some.injEq, Prod.mk.injEq] at h
  obtain ⟨h1, h2, h3⟩ := h
  subst h1; subst h2; subst h3
  exact ⟨mod_to_pi_nonneg _, (mod_to_pi_lt _).le, mod_to_pi_nonneg _,
    mod_to_pi_nonneg _, (mod_to_pi_lt _).le⟩

theorem finish_eq (pl : String) (t p q : ℝ)
    (ht0 : 0 ≤ t) (ht2 : t ≤ 2 * Real.pi) (hp : 0 ≤ p)
    (hq0 : 0 ≤ q) (hq2 : q ≤ 2 * Real.pi) :
    ∃ t' q', finish pl t p q = ((t', p, q'), pl.data, t' + p + q') ∧
      0 ≤ t' ∧ 0 ≤ q' := by
  have h1 : 0 ≤ (if (pl.data.getD 0 'A').isLower then 2 * Real.pi - t else t) := by
    split_ifs <;> linarith
  have h2 : 0 ≤ (if (pl.data.getD 2 'A').isLower then 2 * Real.pi - q else q) := by
    split_ifs <;> linarith
  refine ⟨_, _, ?_, h1, h2⟩
  show ((_, p, _), pl.data, |_| + |p| + |_|) = _
  rw [abs_of_nonneg h1, abs_of_nonneg hp, abs_of_nonneg h2]

theorem finish_case {planner : String} {t0 p0 q0 t p q co : ℝ} {mode : List Char}
    (hb : 0 ≤ t0 ∧ t0 ≤ 2 * Real.pi ∧ 0 ≤ p0 ∧ 0 ≤ q0 ∧ q0 ≤ 2 * Real.pi)
    (hfx : finish planner t0 p0 q0 = ((t, p, q), mode, co)) :
    0 ≤ t ∧ 0 ≤ p ∧ 0 ≤ q ∧ co = t + p + q := by
  obtain ⟨hb1, hb2, hb3, hb4, hb5⟩ := hb
  obtain ⟨t', q', hfin, ht', hq'⟩ := finish_eq planner t0 p0 q0 hb1 hb2 hb3 hb4 hb5
  rw [hfin] at hfx
  simp only [Prod.mk.injEq] at hfx
  obtain ⟨⟨ha, hb', hc⟩, _, hd⟩ := hfx
  subst ha; subst hb'; subst hc; subst hd
  exact ⟨ht', hb3, hq', rfl⟩

/-! ### Concrete evaluation at `alpha = 0`, `beta = 0`, `d = 10`
(the normalized problem of routing from `(0,0,0°)` to `(10,0,0°)` with
radius 1) -/

theorem mod_to_pi_zero : mod_to_pi 0 = 0 := by
  simp [mod_to_pi]

theorem atan2_zero_pos {x : ℝ} (hx : 0 < x) : atan2 0 x = 0 := by
  simp [atan2, hx]

theorem sqrt_hundred : Real.sqrt 100 = 10 := by
  rw [show (100:ℝ) = 10 ^ 2 by norm_num]
  exact Real.sqrt_sq (by norm_num)

theorem planLSL_eval : planLSL (0:ℝ) 0 10 = some (0, 10, 0) := by
  simp only [planLSL, Real.sin_zero, Real.cos_zero, sub_zero, sub_self, mul_zero,
    add_zero, neg_zero, zero_add, zero_sub]
  norm_num [atan2_zero_pos, mod_to_pi_zero, sqrt_hundred]

theorem planRSR_eval : planRSR (0:ℝ) 0 10 = some (0, 10, 0) := by
  simp only [planRSR, Real.sin_zero, Real.cos_zero, sub_zero, sub_self, mul_zero,
    add_zero, neg_zero, zero_add, zero_sub]
  norm_num [atan2_zero_pos, mod_to_pi_zero, sqrt_hundred]

theorem planLSR_eval : planLSR (0:ℝ) 0 10 = some (0, 10, 0) := by
  simp only [planLSR, Real.sin_zero, Real.cos_zero, sub_zero, sub_self, mul_zero,
    add_zero, neg_zero, zero_add, zero_sub]
  norm_num [mod_to_pi_zero, sqrt_hundred]

theorem planRSL_eval : planRSL (0:ℝ) 0 10 = some (0, 10, 0) := by
  simp only [planRSL, Real.sin_zero, Real.cos_zero, sub_zero, sub_self, mul_zero,
    add_zero, neg_zero, zero_add, zero_sub]
  norm_num [mod_to_pi_zero, sqrt_hundred]

theorem planRLR_eval : planRLR (0:ℝ) 0 10 = none := by
  simp only [planRLR, Real.sin_zero, Real.cos_zero, sub_zero, sub_self, mul_zero,
    add_zero, neg_zero, zero_add, zero_sub]
  norm_num [abs_of_nonneg]

theorem planLRL_eval : planLRL (0:ℝ) 0 10 = none := by
  simp only [planLRL, Real.sin_zero, Real.cos_zero, sub_zero, sub_self, mul_zero,
    add_zero, neg_zero, zero_add, zero_sub]
  norm_num [abs_of_nonneg]

theorem famSol_LSL_eval :
    famSol "LSL" (0:ℝ) 0 10 = some ((0, 10, 0), ['L', 'S', 'L'], 10) := by
  rw [famSol_LSL, planLSL_eval]
  have hfin : finish "LSL" (0:ℝ) 10 0 =
      ((0, 10, 0), ['L', 'S', 'L'], |(0:ℝ)| + |(10:ℝ)| + |(0:ℝ)|) := rfl
  show some (finish "LSL" (0:ℝ) 10 0) = _
  rw [hfin]
  norm_num

theorem famSol_RSR_eval :
    famSol "RSR" (0:ℝ) 0 10 = some ((0, 10, 0), ['R', 'S', 'R'], 10) := by
  rw [famSol_RSR, planRSR_eval]
  have hfin : finish "RSR" (0:ℝ) 10 0 =
      ((0, 10, 0), ['R', 'S', 'R'], |(0:ℝ)| + |(10:ℝ)| + |(0:ℝ)|) := rfl
  show some (finish "RSR" (0:ℝ) 10 0) = _
  rw [hfin]
  norm_num

theorem famSol_LSR_eval :
    famSol "LSR" (0:ℝ) 0 10 = some ((0, 10, 0), ['L', 'S', 'R'], 10) := by
  rw [famSol_LSR, planLSR_eval]
  have hfin : finish "LSR" (0:ℝ) 10 0 =
      ((0, 10, 0), ['L', 'S', 'R'], |(0:ℝ)| + |(10:ℝ)| + |(0:ℝ)|) := rfl
  show some (finish "LSR" (0:ℝ) 10 0) = _
  rw [hfin]
  norm_num

theorem famSol_RSL_eval :
    famSol "RSL" (0:ℝ) 0 10 = some ((0, 10, 0), ['R', 'S', 'L'], 10) := by
  rw [famSol_RSL, planRSL_eval]
  have hfin : finish "RSL" (0:ℝ) 10 0 =
      ((0, 10, 0), ['R', 'S', 'L'], |(0:ℝ)| + |(10:ℝ)| + |(0:ℝ)|) := rfl
  show some (finish "RSL" (0:ℝ) 10 0) = _
  rw [hfin]
  norm_num

theorem famSol_RLR_eval : famSol "RLR" (0:ℝ) 0 10 = none := by
  rw [famSol_RLR, planRLR_eval]
  rfl

theorem famSol_LRL_eval : famSol "LRL" (0:ℝ) 0 10 = none := by
  rw [famSol_LRL, planLRL_eval]
  rfl

theorem sols_eval : sols (0:ℝ) 0 10 =
    [some ((0, 10, 0), ['L', 'S', 'L'], 10), some ((0, 10, 0), ['R', 'S', 'R'], 10),
     some ((0, 10, 0), ['L', 'S', 'R'], 10), some ((0, 10, 0), ['R', 'S', 'L'], 10),
     none, none] := by
  show [famSol "LSL" (0:ℝ) 0 10, famSol "RSR" (0:ℝ) 0 10, famSol "LSR" (0:ℝ) 0 10,
    famSol "RSL" (0:ℝ) 0 10, famSol "RLR" (0:ℝ) 0 10, famSol "LRL" (0:ℝ) 0 10] = _
  rw [famSol_LSL_eval, famSol_RSR_eval, famSol_LSR_eval, famSol_RSL_eval,
    famSol_RLR_eval, famSol_LRL_eval]

theorem merge_keep {s f : Sol} (h : ¬ cost f < cost s) : merge s (some f) = s := by
  show (if cost f < cost s then f else s) = s
  rw [if_neg h]

theorem firstMin_eval :
    firstMin (sols (0:ℝ) 0 10) = some ((0, 10, 0), ['L', 'S', 'L'], 10) := by
  rw [sols_eval]
  have hD : firstMin [some ((0, 10, 0), ['R', 'S', 'L'], 10), none, none] =
      some ((0, 10, 0), ['R', 'S', 'L'], (10:ℝ)) := rfl
  have hC : firstMin [some ((0, 10, 0), ['L', 'S', 'R'], 10),
      some ((0, 10, 0), ['R', 'S', 'L'], 10), none, none] =
      some ((0, 10, 0), ['L', 'S', 'R'], (10:ℝ)) := by
    show some (merge ((0, 10, 0), ['L', 'S', 'R'], 10)
      (firstMin [some ((0, 10, 0), ['R', 'S', 'L'], 10), none, none])) = _
    rw [hD, merge_keep (by norm_num [cost])]
  have hB : firstMin [some ((0, 10, 0), ['R', 'S', 'R'], 10),
      some ((0, 10, 0), ['L', 'S', 'R'], 10),
      some ((0, 10, 0), ['R', 'S', 'L'], 10), none, none] =
      some ((0, 10, 0), ['R', 'S', 'R'], (10:ℝ)) := by
    show some (merge ((0, 10, 0), ['R', 'S', 'R'], 10)
      (firstMin [some ((0, 10, 0), ['L', 'S', 'R'], 10),
        some ((0, 10, 0), ['R', 'S', 'L'], 10), none, none])) = _
    rw [hC, merge_keep (by norm_num [cost])]
  show some (merge ((0, 10, 0), ['L', 'S', 'L'], 10)
    (firstMin [some ((0, 10, 0), ['R', 'S', 'R'], 10),
      some ((0, 10, 0), ['L', 'S', 'R'], 10),
      some ((0, 10, 0), ['R', 'S', 'L'], 10), none, none])) = _
  rw [hB, merge_keep (by norm_num [cost])]

theorem normalize_eval : normalize 1 ((0:ℝ), 0, 0) (10, 0, 0) = (0, 0, 10) := by
  unfold normalize localFrame radians
  norm_num [Real.sin_zero, Real.cos_zero, mod_to_pi_zero, atan2_zero_pos, sqrt_hundred]

theorem dubins_path_eval :
    dubins_path 1 ((0:ℝ), 0, 0) (10, 0, 0) =
      .ok [('L', 0, 1), ('S', 10, 1), ('L', 0, 1)] := by
  simp only [dubins_path]
  rw [if_neg (show ¬ (1:ℝ) = 0 by norm_num), normalize_eval]
  dsimp only
  rw [best_path_eq, firstMin_eval]
  norm_num [List.zip_cons_cons]

/-! ### The source family evaluators equal the spec's table -/

theorem planLSL_eq_spec (alpha beta d : ℝ) :
    planLSL alpha beta d = specLSL alpha beta d ∧
      (planLSL alpha beta d = none ↔
        2 + d ^ 2 - 2 * Real.cos (alpha - beta) +
          2 * d * (Real.sin alpha - Real.sin beta) < 0) := by
  have hX : 2 + d ^ 2 - 2 * Real.cos (alpha - beta) +
      2 * d * (Real.sin alpha - Real.sin beta) =
      2 + d * d - 2 * Real.cos (alpha - beta) +
        2 * d * (Real.sin alpha - Real.sin beta) := by ring
  simp only [planLSL, specLSL]
  by_cases hc : 2 + d * d - 2 * Real.cos (alpha - beta) +
      2 * d * (Real.sin alpha - Real.sin beta) < 0
  · rw [if_pos hc, if_neg (show ¬ (0 ≤ 2 + d ^ 2 - 2 * Real.cos (alpha - beta) +
      2 * d * (Real.sin alpha - Real.sin beta)) by rw [hX]; linarith)]
    exact ⟨rfl, iff_of_true rfl (by rw [hX]; exact hc)⟩
  · rw [if_neg hc, if_pos (show 0 ≤ 2 + d ^ 2 - 2 * Real.cos (alpha - beta) +
      2 * d * (Real.sin alpha - Real.sin beta) by rw [hX]; exact not_lt.1 hc)]
    exact ⟨by rw [hX], iff_of_false (by simp) (by rw [hX]; exact hc)⟩

theorem planRSR_eq_spec (alpha beta d : ℝ) :
    planRSR alpha beta d = specRSR alpha beta d ∧
      (planRSR alpha beta d = none ↔
        2 + d ^ 2 - 2 * Real.cos (alpha - beta) +
          2 * d * (Real.sin beta - Real.sin alpha) < 0) := by
  have hX : 2 + d ^ 2 - 2 * Real.cos (alpha - beta) +
      2 * d * (Real.sin beta - Real.sin alpha) =
      2 + d * d - 2 * Real.cos (alpha - beta) +
        2 * d * (Real.sin beta - Real.sin alpha) := by ring
  simp only [planRSR, specRSR]
  by_cases hc : 2 + d * d - 2 * Real.cos (alpha - beta) +
      2 * d * (Real.sin beta - Real.sin alpha) < 0
  · rw [if_pos hc, if_neg (show ¬ (0 ≤ 2 + d ^ 2 - 2 * Real.cos (alpha - beta) +
      2 * d * (Real.sin beta - Real.sin alpha)) by rw [hX]; linarith)]
    exact ⟨rfl, iff_of_true rfl (by rw [hX]; exact hc)⟩
  · rw [if_neg hc, if_pos (show 0 ≤ 2 + d ^ 2 - 2 * Real.cos (alpha - beta) +
      2 * d * (Real.sin beta - Real.sin alpha) by rw [hX]; exact not_lt.1 hc)]
    exact ⟨by rw [hX], iff_of_false (by simp) (by rw [hX]; exact hc)⟩

theorem planLSR_eq_spec (alpha beta d : ℝ) :
    planLSR alpha beta d = specLSR alpha beta d ∧
      (planLSR alpha beta d = none ↔
        -2 + d ^ 2 + 2 * Real.cos (alpha - beta) +
          2 * d * (Real.sin alpha + Real.sin beta) < 0) := by
  have hX : -2 + d ^ 2 + 2 * Real.cos (alpha - beta) +
      2 * d * (Real.sin alpha + Real.sin beta) =
      -2 + d * d + 2 * Real.cos (alpha - beta) +
        2 * d * (Real.sin alpha + Real.sin beta) := by ring
  simp only [planLSR, specLSR]
  by_cases hc : -2 + d * d + 2 * Real.cos (alpha - beta) +
      2 * d * (Real.sin alpha + Real.sin beta) < 0
  · rw [if_pos hc, if_neg (show ¬ (0 ≤ -2 + d ^ 2 + 2 * Real.cos (alpha - beta) +
      2 * d * (Real.sin alpha + Real.sin beta)) by rw [hX]; linarith)]
    exact ⟨rfl, iff_of_true rfl (by rw [hX]; exact hc)⟩
  · rw [if_neg hc, if_pos (show 0 ≤ -2 + d ^ 2 + 2 * Real.cos (alpha - beta) +
      2 * d * (Real.sin alpha + Real.sin beta) by rw [hX]; exact not_lt.1 hc)]
    exact ⟨by rw [hX], iff_of_false (by simp) (by rw [hX]; exact hc)⟩

theorem planRSL_eq_spec (alpha beta d : ℝ) :
    planRSL alpha beta d = specRSL alpha beta d ∧
      (planRSL alpha beta d = none ↔
        d ^ 2 - 2 + 2 * Real.cos (alpha - beta) -
          2 * d * (Real.sin alpha + Real.sin beta) < 0) := by
  have hX : d ^ 2 - 2 + 2 * Real.cos (alpha - beta) -
      2 * d * (Real.sin alpha + Real.sin beta) =
      d * d - 2 + 2 * Real.cos (alpha - beta) -
        2 * d * (Real.sin alpha + Real.sin beta) := by ring
  simp only [planRSL, specRSL]
  by_cases hc : d * d - 2 + 2 * Real.cos (alpha - beta) -
      2 * d * (Real.sin alpha + Real.sin beta) < 0
  · rw [if_pos hc, if_neg (show ¬ (0 ≤ d ^ 2 - 2 + 2 * Real.cos (alpha - beta) -
      2 * d * (Real.sin alpha + Real.sin beta)) by rw [hX]; linarith)]
    exact ⟨rfl, iff_of_true rfl (by rw [hX]; exact hc)⟩
  · rw [if_neg hc, if_pos (show 0 ≤ d ^ 2 - 2 + 2 * Real.cos (alpha - beta) -
      2 * d * (Real.sin alpha + Real.sin beta) by rw [hX]; exact not_lt.1 hc)]
    exact ⟨by rw [hX], iff_of_false (by simp) (by rw [hX]; exact hc)⟩

theorem planRLR_eq_spec (alpha beta d : ℝ) :
    planRLR alpha beta d = specRLR alpha beta d ∧
      (planRLR alpha beta d = none ↔
        ¬ (|(6 - d ^ 2 + 2 * Real.cos (alpha - beta) +
          2 * d * (Real.sin alpha - Real.sin beta)) / 8| ≤ 1)) := by
  have hX : (6 - d ^ 2 + 2 * Real.cos (alpha - beta) +
      2 * d * (Real.sin alpha - Real.sin beta)) / 8 =
      (6 - d * d + 2 * Real.cos (alpha - beta) +
        2 * d * (Real.sin alpha - Real.sin beta)) / 8 := by ring
  simp only [planRLR, specRLR]
  by_cases hc : 1 < |(6 - d * d + 2 * Real.cos (alpha - beta) +
      2 * d * (Real.sin alpha - Real.sin beta)) / 8|
  · rw [if_pos hc, if_neg (show ¬ (|(6 - d ^ 2 + 2 * Real.cos (alpha - beta) +
      2 * d * (Real.sin alpha - Real.sin beta)) / 8| ≤ 1) by rw [hX]; exact not_le.2 hc)]
    exact ⟨rfl, iff_of_true rfl (by rw [hX]; exact not_le.2 hc)⟩
  · rw [if_neg hc, if_pos (show |(6 - d ^ 2 + 2 * Real.cos (alpha - beta) +
      2 * d * (Real.sin alpha - Real.sin beta)) / 8| ≤ 1 by rw [hX]; exact not_lt.1 hc)]
    refine ⟨by rw [hX], iff_of_false (by simp) ?_⟩
    rw [hX]
    simpa using not_lt.1 hc

theorem planLRL_eq_spec (alpha beta d : ℝ) :
    planLRL alpha beta d = specLRL alpha beta d ∧
      (planLRL alpha beta d = none ↔
        ¬ (|(6 - d ^ 2 + 2 * Real.cos (alpha - beta) +
          2 * d * (Real.sin beta - Real.sin alpha)) / 8| ≤ 1)) := by
  have hX : (6 - d ^ 2 + 2 * Real.cos (alpha - beta) +
      2 * d * (Real.sin beta - Real.sin alpha)) / 8 =
      (6 - d * d + 2 * Real.cos (alpha - beta) +
        2 * d * (-Real.sin alpha + Real.sin beta)) / 8 := by ring
  simp only [planLRL, specLRL]
  by_cases hc : 1 < |(6 - d * d + 2 * Real.cos (alpha - beta) +
      2 * d * (-Real.sin alpha + Real.sin beta)) / 8|
  · rw [if_pos hc, if_neg (show ¬ (|(6 - d ^ 2 + 2 * Real.cos (alpha - beta) +
      2 * d * (Real.sin beta - Real.sin alpha)) / 8| ≤ 1) by rw [hX]; exact not_le.2 hc)]
    exact ⟨rfl, iff_of_true rfl (by rw [hX]; exact not_le.2 hc)⟩
  · rw [if_neg hc, if_pos (show |(6 - d ^ 2 + 2 * Real.cos (alpha - beta) +
      2 * d * (Real.sin beta - Real.sin alpha)) / 8| ≤ 1 by rw [hX]; exact not_lt.1 hc)]
    refine ⟨by rw [hX], iff_of_false (by simp) ?_⟩
    rw [hX]
    simpa using not_lt.1 hc

/-! ### Claim theorems -/

/-- C1 (counterexample): the claim says every call with radius ≤ 0 fails with
`InvalidRadiusError`; in the code there is no radius validation at all, and
the concrete call with radius −1 from `(0,0,0°)` to `(10,0,0°)` returns a
path successfully instead of failing. -/
theorem radius_negative_ok :
    ∃ segs : List (Char × ℝ × ℝ),
      dubins_path (-1) ((0:ℝ), 0, 0) (10, 0, 0) = Except.ok segs := by
  obtain ⟨bt, bp, bq, bmode, bcost, _, hok, _⟩ :=
    dubins_path_ok (-1) ((0:ℝ), 0, 0) (10, 0, 0) (by norm_num)
  exact ⟨_, hok⟩

/-- C1 (amended): `dubins_path` performs no radius validation and no
`InvalidRadiusError` exists. A call with radius 0 fails with
`ZeroDivisionError` at the `d = D / c` division; every call with a nonzero
radius (negative radii included) returns a path successfully. -/
theorem no_radius_validation :
    (∀ s e : ℝ × ℝ × ℝ, dubins_path 0 s e = .error .zeroDivisionError) ∧
    (∀ (c : ℝ) (s e : ℝ × ℝ × ℝ), c ≠ 0 →
      ∃ segs, dubins_path c s e = Except.ok segs) := by
  constructor
  · intro s e
    simp [dubins_path]
  · intro c s e hc
    obtain ⟨bt, bp, bq, bmode, bcost, _, hok, _⟩ := dubins_path_ok c s e hc
    exact ⟨_, hok⟩

/-- Witness for C1's amended theorem at radius −1 and an arbitrary concrete
pair of configurations. -/
theorem no_radius_validation_witness :
    ((-1:ℝ) ≠ 0) ∧
      ∃ segs, dubins_path (-1) ((5:ℝ), 3, 90) (42, 7, 180) = Except.ok segs :=
  ⟨by norm_num, no_radius_validation.2 (-1) ((5:ℝ), 3, 90) (42, 7, 180) (by norm_num)⟩

/-- C2: the "all six families infeasible" premise is unsatisfiable — for every
normalized input at least one of LSL and RSR is feasible (their two `p²`
values sum to `4 + 2d² − 4cos(α−β) ≥ 0`) — and the planner never returns a
null or partial path: every call with a nonzero radius succeeds and every
successful call yields exactly 3 segments. -/
theorem planner_totality :
    (∀ alpha beta d : ℝ,
      famSol "LSL" alpha beta d ≠ none ∨ famSol "RSR" alpha beta d ≠ none) ∧
    (∀ (c : ℝ) (s e : ℝ × ℝ × ℝ), c ≠ 0 →
      ∃ segs : List (Char × ℝ × ℝ), dubins_path c s e = .ok segs ∧ segs.length = 3) ∧
    (∀ (c : ℝ) (s e : ℝ × ℝ × ℝ) (segs : List (Char × ℝ × ℝ)),
      dubins_path c s e = .ok segs → segs.length = 3) := by
  refine ⟨famSol_feasible, ?_, ?_⟩
  · intro c s e hc
    obtain ⟨bt, bp, bq, bmode, bcost, _, hok, m0, m1, m2, hm, _⟩ :=
      dubins_path_ok c s e hc
    subst hm
    exact ⟨_, hok, rfl⟩
  · intro c s e segs h
    by_cases hc : c = 0
    · subst hc
      simp [dubins_path] at h
    · obtain ⟨bt, bp, bq, bmode, bcost, _, hok, m0, m1, m2, hm, _⟩ :=
        dubins_path_ok c s e hc
      rw [hok] at h
      injection h with h'
      rw [← h']
      subst hm
      rfl

/-- Witness for C2 at radius 1 from `(0,0,0°)` to `(10,0,0°)`: the returned
3-segment list. -/
theorem planner_totality_witness :
    ([('L', (0:ℝ), (1:ℝ)), ('S', 10, 1), ('L', 0, 1)]).length = 3 :=
  planner_totality.2.2 1 ((0:ℝ), 0, 0) (10, 0, 0) _ dubins_path_eval

/-- C3: the selection loop evaluates the six families in the fixed order LSL,
RSR, LSR, RSL, RLR, LRL and returns the first minimum: the loop equals
`firstMin` over the candidates in that order, and any winner's cost is
strictly below every feasible candidate before it (an equal-cost later family
never replaces it) and at most every feasible candidate after it. -/
theorem selector_first_min (alpha beta d : ℝ) :
    best_path alpha beta d = .ok (firstMin (sols alpha beta d)) ∧
    sols alpha beta d = [famSol "LSL" alpha beta d, famSol "RSR" alpha beta d,
      famSol "LSR" alpha beta d, famSol "RSL" alpha beta d,
      famSol "RLR" alpha beta d, famSol "LRL" alpha beta d] ∧
    ∀ b : Sol, firstMin (sols alpha beta d) = some b →
      ∃ l1 l2, sols alpha beta d = l1 ++ some b :: l2 ∧
        (∀ s : Sol, some s ∈ l1 → cost b < cost s) ∧
        (∀ s : Sol, some s ∈ l2 → cost b ≤ cost s) := by
  refine ⟨best_path_eq alpha beta d, rfl, ?_⟩
  intro b hb
  exact firstMin_split _ b hb

/-- Witness for C3 at `(alpha, beta, d) = (0, 0, 10)`: LSL wins with cost 10
although RSR, LSR and RSL also cost exactly 10 (first-minimum-wins). -/
theorem selector_first_min_witness :
    ∃ l1 l2, sols (0:ℝ) 0 10 =
        l1 ++ some ((0, 10, 0), ['L', 'S', 'L'], (10:ℝ)) :: l2 ∧
      (∀ s : Sol, some s ∈ l1 → cost ((0, 10, 0), ['L', 'S', 'L'], (10:ℝ)) < cost s) ∧
      (∀ s : Sol, some s ∈ l2 → cost ((0, 10, 0), ['L', 'S', 'L'], (10:ℝ)) ≤ cost s) :=
  (selector_first_min 0 0 10).2.2 _ firstMin_eval

/-- C6: every feasible family result, after the per-family post-processing,
has non-negative segment measures `t`, `p`, `q`, and the reported cost (the
sum of absolute values in the source) equals the plain sum `t + p + q`. -/
theorem feasible_nonneg_cost (planner : String) (alpha beta d t p q co : ℝ)
    (mode : List Char)
    (h : general_planner planner alpha beta d = .ok (some ((t, p, q), mode, co))) :
    0 ≤ t ∧ 0 ≤ p ∧ 0 ≤ q ∧ co = t + p + q := by
  simp only [general_planner] at h
  split_ifs at h with h1 h2 h3 h4 h5 h6
  · simp only [Except.ok.injEq] at h
    obtain ⟨⟨t0, p0, q0⟩, hx, hfx⟩ := Option.map_eq_some'.1 h
    exact finish_case (planLSL_bounds hx) hfx
  · simp only [Except.ok.injEq] at h
    obtain ⟨⟨t0, p0, q0⟩, hx, hfx⟩ := Option.map_eq_some'.1 h
    exact finish_case (planRSR_bounds hx) hfx
  · simp only [Except.ok.injEq] at h
    obtain ⟨⟨t0, p0, q0⟩, hx, hfx⟩ := Option.map_eq_some'.1 h
    exact finish_case (planLSR_bounds hx) hfx
  · simp only [Except.ok.injEq] at h
    obtain ⟨⟨t0, p0, q0⟩, hx, hfx⟩ := Option.map_eq_some'.1 h
    exact finish_case (planRSL_bounds hx) hfx
  · simp only [Except.ok.injEq] at h
    obtain ⟨⟨t0, p0, q0⟩, hx, hfx⟩ := Option.map_eq_some'.1 h
    exact finish_case (planRLR_bounds hx) hfx
  · simp only [Except.ok.injEq] at h
    obtain ⟨⟨t0, p0, q0⟩, hx, hfx⟩ := Option.map_eq_some'.1 h
    exact finish_case (planLRL_bounds hx) hfx

/-- Witness for C6 on the feasible LSL result at `(0, 0, 10)`. -/
theorem feasible_nonneg_cost_witness :
    (0:ℝ) ≤ 0 ∧ (0:ℝ) ≤ 10 ∧ (0:ℝ) ≤ 0 ∧ (10:ℝ) = 0 + 10 + 0 :=
  feasible_nonneg_cost "LSL" 0 0 10 0 10 0 10 ['L', 'S', 'L'] (by
    rw [general_planner_LSL, ← famSol_LSL, famSol_LSL_eval])

/-- C4: each of the six family evaluators of the source is infeasible exactly
when its spec feasibility test fails, and otherwise returns the `(t, p, q)`
of the spec's closed-form table (the `spec…` definitions are transcribed from
the spec's table, the `plan…` definitions from the source). -/
theorem family_formulas_match_spec (alpha beta d : ℝ) :
    (planLSL alpha beta d = specLSL alpha beta d ∧
      (planLSL alpha beta d = none ↔
        2 + d ^ 2 - 2 * Real.cos (alpha - beta) +
          2 * d * (Real.sin alpha - Real.sin beta) < 0)) ∧
    (planRSR alpha beta d = specRSR alpha beta d ∧
      (planRSR alpha beta d = none ↔
        2 + d ^ 2 - 2 * Real.cos (alpha - beta) +
          2 * d * (Real.sin beta - Real.sin alpha) < 0)) ∧
    (planLSR alpha beta d = specLSR alpha beta d ∧
      (planLSR alpha beta d = none ↔
        -2 + d ^ 2 + 2 * Real.cos (alpha - beta) +
          2 * d * (Real.sin alpha + Real.sin beta) < 0)) ∧
    (planRSL alpha beta d = specRSL alpha beta d ∧
      (planRSL alpha beta d = none ↔
        d ^ 2 - 2 + 2 * Real.cos (alpha - beta) -
          2 * d * (Real.sin alpha + Real.sin beta) < 0)) ∧
    (planRLR alpha beta d = specRLR alpha beta d ∧
      (planRLR alpha beta d = none ↔
        ¬ (|(6 - d ^ 2 + 2 * Real.cos (alpha - beta) +
          2 * d * (Real.sin alpha - Real.sin beta)) / 8| ≤ 1))) ∧
    (planLRL alpha beta d = specLRL alpha beta d ∧
      (planLRL alpha beta d = none ↔
        ¬ (|(6 - d ^ 2 + 2 * Real.cos (alpha - beta) +
          2 * d * (Real.sin beta - Real.sin alpha)) / 8| ≤ 1))) :=
  ⟨planLSL_eq_spec alpha beta d, planRSR_eq_spec alpha beta d,
   planLSR_eq_spec alpha beta d, planRSL_eq_spec alpha beta d,
   planRLR_eq_spec alpha beta d, planLRL_eq_spec alpha beta d⟩

/-- C5: the normalization step computes exactly the spec's formulas —
`d = sqrt(local_x² + local_y²)/radius` with the stated local frame,
`alpha = canon(−theta)`, `beta = canon((h2−h1 in radians) − theta)` with
`theta = canon(atan2(local_y, local_x))` — and
`canon(a) = a − 2π·floor(a/2π)` always lies in `[0, 2π)`. -/
theorem normalization_formulas (c sx sy h1 ex ey h2 : ℝ) :
    normalize c (sx, sy, h1) (ex, ey, h2) =
      (mod_to_pi (-(mod_to_pi (atan2
          (-Real.sin (radians h1) * (ex - sx) + Real.cos (radians h1) * (ey - sy))
          (Real.cos (radians h1) * (ex - sx) + Real.sin (radians h1) * (ey - sy))))),
       mod_to_pi ((radians h2 - radians h1) - mod_to_pi (atan2
          (-Real.sin (radians h1) * (ex - sx) + Real.cos (radians h1) * (ey - sy))
          (Real.cos (radians h1) * (ex - sx) + Real.sin (radians h1) * (ey - sy)))),
       Real.sqrt ((Real.cos (radians h1) * (ex - sx) +
           Real.sin (radians h1) * (ey - sy)) ^ 2 +
         (-Real.sin (radians h1) * (ex - sx) +
           Real.cos (radians h1) * (ey - sy)) ^ 2) / c) ∧
    (∀ a : ℝ, mod_to_pi a = a - 2 * Real.pi * ⌊a / (2 * Real.pi)⌋ ∧
      0 ≤ mod_to_pi a ∧ mod_to_pi a < 2 * Real.pi) :=
  ⟨rfl, fun a => ⟨mod_to_pi_eq a, mod_to_pi_nonneg a, mod_to_pi_lt a⟩⟩

/-- C7: every successful planning call returns exactly 3 segments, in order
the winning family's three letters (each of which `gds_solution` maps to a
left arc, right arc or straight — never the `ValueError` branch), each with
physical length = normalized measure × radius and the input radius attached. -/
theorem path_materialization (c : ℝ) (s e : ℝ × ℝ × ℝ)
    (segs : List (Char × ℝ × ℝ)) (h : dubins_path c s e = .ok segs) :
    ∃ (t p q bcost : ℝ) (m0 m1 m2 : Char),
      firstMin (sols (normalize c s e).1 (normalize c s e).2.1
        (normalize c s e).2.2) = some ((t, p, q), [m0, m1, m2], bcost) ∧
      segs = [(m0, t * c, c), (m1, p * c, c), (m2, q * c, c)] ∧
      segs.length = 3 ∧
      (∀ seg ∈ segs, seg.2.2 = c) ∧
      (∀ seg ∈ segs, ∃ k a, gds_kind seg.1 seg.2.1 seg.2.2 = .ok (k, a)) := by
  by_cases hc : c = 0
  · subst hc
    simp [dubins_path] at h
  · obtain ⟨bt, bp, bq, bmode, bcost, hfm, hok, m0, m1, m2, hm, k0, k1, k2⟩ :=
      dubins_path_ok c s e hc
    rw [hok] at h
    injection h with h'
    subst h'
    subst hm
    refine ⟨bt, bp, bq, bcost, m0, m1, m2, hfm, rfl, rfl, ?_, ?_⟩
    · intro seg hseg
      rcases (by simpa using hseg :
          seg = (m0, bt * c, c) ∨ seg = (m1, bp * c, c) ∨ seg = (m2, bq * c, c)) with
        rfl | rfl | rfl <;> rfl
    · intro seg hseg
      rcases (by simpa using hseg :
          seg = (m0, bt * c, c) ∨ seg = (m1, bp * c, c) ∨ seg = (m2, bq * c, c)) with
        rfl | rfl | rfl
      · rcases k0 with rfl | rfl | rfl
        · exact ⟨.left, _, rfl⟩
        · exact ⟨.right, _, rfl⟩
        · exact ⟨.straight, _, rfl⟩
      · rcases k1 with rfl | rfl | rfl
        · exact ⟨.left, _, rfl⟩
        · exact ⟨.right, _, rfl⟩
        · exact ⟨.straight, _, rfl⟩
      · rcases k2 with rfl | rfl | rfl
        · exact ⟨.left, _, rfl⟩
        · exact ⟨.right, _, rfl⟩
        · exact ⟨.straight, _, rfl⟩

/-- Witness for C7 on the successful call with radius 1 from `(0,0,0°)` to
`(10,0,0°)`. -/
theorem path_materialization_witness :
    ∃ (t p q bcost : ℝ) (m0 m1 m2 : Char),
      firstMin (sols (normalize 1 ((0:ℝ), 0, 0) (10, 0, 0)).1
        (normalize 1 ((0:ℝ), 0, 0) (10, 0, 0)).2.1
        (normalize 1 ((0:ℝ), 0, 0) (10, 0, 0)).2.2) =
          some ((t, p, q), [m0, m1, m2], bcost) ∧
      [('L', (0:ℝ), (1:ℝ)), ('S', 10, 1), ('L', 0, 1)] =
        [(m0, t * 1, 1), (m1, p * 1, 1), (m2, q * 1, 1)] ∧
      ([('L', (0:ℝ), (1:ℝ)), ('S', 10, 1), ('L', 0, 1)]).length = 3 ∧
      (∀ seg ∈ [('L', (0:ℝ), (1:ℝ)), ('S', 10, 1), ('L', 0, 1)], seg.2.2 = 1) ∧
      (∀ seg ∈ [('L', (0:ℝ), (1:ℝ)), ('S', 10, 1), ('L', 0, 1)],
        ∃ k a, gds_kind seg.1 seg.2.1 seg.2.2 = .ok (k, a)) :=
  path_materialization 1 ((0:ℝ), 0, 0) (10, 0, 0) _ dubins_path_eval

/-- C8: scaling start and end positions (relative to the origin) and the
radius by the same positive factor leaves the normalized problem
`(alpha, beta, d)` unchanged, and hence the whole selection (the `(t,p,q)`
of every family and the winner) is identical. -/
theorem scale_invariance (k c sx sy h1 ex ey h2 : ℝ) (hk : 0 < k) :
    normalize (k * c) (k * sx, k * sy, h1) (k * ex, k * ey, h2) =
      normalize c (sx, sy, h1) (ex, ey, h2) ∧
    best_path (normalize (k * c) (k * sx, k * sy, h1) (k * ex, k * ey, h2)).1
        (normalize (k * c) (k * sx, k * sy, h1) (k * ex, k * ey, h2)).2.1
        (normalize (k * c) (k * sx, k * sy, h1) (k * ex, k * ey, h2)).2.2 =
      best_path (normalize c (sx, sy, h1) (ex, ey, h2)).1
        (normalize c (sx, sy, h1) (ex, ey, h2)).2.1
        (normalize c (sx, sy, h1) (ex, ey, h2)).2.2 := by
  have h := normalize_scale k c sx sy h1 ex ey h2 hk
  exact ⟨h, by rw [h]⟩

/-- Witness for C8 at scale 2 on the radius-1 route from `(0,0,0°)` to
`(10,0,0°)`. -/
theorem scale_invariance_witness :
    ((0:ℝ) < 2) ∧
      normalize (2 * 1) (2 * 0, 2 * 0, (0:ℝ)) (2 * 10, 2 * 0, 0) =
        normalize 1 ((0:ℝ), 0, 0) (10, 0, 0) :=
  ⟨by norm_num, (scale_invariance 2 1 0 0 0 10 0 0 (by norm_num)).1⟩

/-- C9: `route_dubin` divides both port centers by 1000, keeps the start
orientation unchanged, and plans to the reversal of the end port's stated
orientation: the end heading passed to the planner is
`(port2.orientation + 180) % 360`, which always lies in `[0, 360)` and
differs from `port2.orientation + 180` by an integer multiple of 360. -/
theorem route_preprocessing (radius : ℝ) (port1 port2 : Port) :
    route_dubin_plan radius port1 port2 =
      dubins_path radius
        (port1.center.1 / 1000, port1.center.2 / 1000, port1.orientation)
        (port2.center.1 / 1000, port2.center.2 / 1000,
          (port2.orientation + 180) - 360 * ⌊(port2.orientation + 180) / 360⌋) ∧
    0 ≤ pymod (port2.orientation + 180) 360 ∧
    pymod (port2.orientation + 180) 360 < 360 ∧
    ∃ z : ℤ, pymod (port2.orientation + 180) 360 =
      port2.orientation + 180 - 360 * z :=
  ⟨rfl, pymod_nonneg _ _ (by norm_num), pymod_lt _ _ (by norm_num), ⟨_, rfl⟩⟩

/-- C10: `dubins_path` computes exactly the same result as the variant of
itself whose lower-case reflection step is removed, because the selector only
ever passes the six upper-case family codes, on which the reflection loop in
`finish` is the identity. -/
theorem reflection_step_no_op (c : ℝ) (s e : ℝ × ℝ × ℝ) :
    dubins_path c s e = dubins_path_plain c s e ∧
    ∀ pl ∈ planners, ∀ t p q : ℝ, finish pl t p q = finish_plain pl t p q := by
  refine ⟨rfl, ?_⟩
  intro pl hpl t p q
  simp only [planners, List.mem_cons, List.not_mem_nil, or_false] at hpl
  rcases hpl with rfl | rfl | rfl | rfl | rfl | rfl <;> rfl

/-- Witness for C10: the two planners agree on the radius-1 route from
`(0,0,0°)` to `(10,0,0°)`, and `finish` is the identity post-processing on
the code "LSL" at the measures `(1, 2, 3)`. -/
theorem reflection_step_no_op_witness :
    dubins_path 1 ((0:ℝ), 0, 0) (10, 0, 0) =
      dubins_path_plain 1 ((0:ℝ), 0, 0) (10, 0, 0) ∧
    finish "LSL" (1:ℝ) 2 3 = finish_plain "LSL" 1 2 3 :=
  ⟨(reflection_step_no_op 1 ((0:ℝ), 0, 0) (10, 0, 0)).1,
   (reflection_step_no_op 1 ((0:ℝ), 0, 0) (10, 0, 0)).2 "LSL"
     (List.mem_cons_self _ _) 1 2 3⟩

end RouteDubin
